import Mathlib

/-
Verification of the megabit-runner serial protocol engine and screen buffer
against its specification.

The development shallowly embeds the Rust sources:
  - `runner/src/serial/mod.rs`   (transport actor: write loop, read loop,
                                  `SerialConnection` facade)
  - `runner/src/display.rs`      (`ScreenBuffer` and friends)
  - `runner/src/wasm_env/host_functions/display.rs`
                                 (`write_region`, `render`)

The external `cobs` crate (byte stuffing) and the external
`megabit_serial_protocol` schema library (`SerialMessage` serialization,
`pack_bools_to_bytes`) are not part of this repository's sources; they are
modelled from the specification where needed, and such definitions carry a
doc comment starting with `Modelled from the spec:`.
-/

namespace Megabit

/-! ## COBS frame codec (modelled from the spec) -/

/-- Modelled from the spec: byte-stuffing worker for `cobs::encode_vec` (the
external `cobs` crate). COBS-style stuffing: the output is a sequence of
groups, each a code byte followed by that many minus one literal non-zero
bytes; a code byte of 255 marks a maximal 254-byte group with no implicit
zero after it, any smaller code marks a group terminated by a payload zero
byte (elided), except for the final group. `block` holds the pending literal
bytes of the current group. -/
def cobsGo : List Nat → List Nat → List Nat
  | block, [] => (block.length + 1) :: block
  | block, b :: rest =>
    if b = 0 then
      ((block.length + 1) :: block) ++ cobsGo [] rest
    else if block.length = 253 then
      (255 :: (block ++ [b])) ++ cobsGo [] rest
    else
      cobsGo (block ++ [b]) rest

/-- Modelled from the spec: `cobs::encode_vec` — byte-stuffs `data` so that
the result contains no `0x00` byte. -/
def cobsEncodeVec (data : List Nat) : List Nat :=
  cobsGo [] data

/-- Modelled from the spec: byte-unstuffing state machine for
`cobs::decode_vec`. `k` is the number of literal bytes still expected in the
current group; `sep` is what the previous group elided (`[0]` after a code
byte below 255, `[]` after a 255 code byte or at the start) and is emitted
when the next group begins. Fails on a zero byte in the input or on a
truncated group. -/
def cobsUnstuffGo : Nat → List Nat → List Nat → Option (List Nat)
  | 0, _, [] => some []
  | 0, sep, b :: rest =>
    if b = 0 then none
    else
      Option.map (fun t => sep ++ t)
        (cobsUnstuffGo (b - 1) (if b = 255 then [] else [0]) rest)
  | _ + 1, _, [] => none
  | k + 1, sep, b :: rest =>
    if b = 0 then none
    else Option.map (fun t => b :: t) (cobsUnstuffGo k sep rest)

/-- Modelled from the spec: unstuff a delimiter-free byte run as the stuffed
portion of one complete frame. An empty run is not a valid frame (a frame
has at least one code byte). -/
def cobsUnstuff : List Nat → Option (List Nat)
  | [] => none
  | b :: rest => cobsUnstuffGo 0 [] (b :: rest)

/-- Modelled from the spec: `cobs::decode_vec` applied to the accumulated
read buffer. Per the spec, decode is attempted against the entire buffer and
succeeds exactly when a complete frame (stuffed bytes followed by a `0x00`
delimiter) sits at the front of the buffer; the payload of that first frame
is returned. If the buffer contains no delimiter, decoding fails and the
buffer is kept for the next read. -/
def cobsDecodeVec (buf : List Nat) : Option (List Nat) :=
  let pre := buf.takeWhile (fun b => b != 0)
  if pre.length = buf.length then none
  else cobsUnstuff pre

/-! ## Serial message data model

From the spec's message catalog (the concrete wire layout lives in the
external `megabit_serial_protocol` crate and stays abstract). -/

/-- Pixel representation tag carried by `GetDisplayInfoResponse`. -/
inductive PixelRepresentation where
  | monocolor
  | rgb555
  deriving DecidableEq

/-- Response payload of `GetDisplayInfo`. -/
structure GetDisplayInfoResponse where
  width : Nat
  height : Nat
  mode : PixelRepresentation
  deriving DecidableEq

/-- The closed catalog of serial messages (spec section 3). -/
inductive SerialMessage where
  | ping
  | setLedState (new_state : Bool)
  | setRgbState (r g b : Nat)
  | updateRow (row_number : Nat) (row_data_len : Nat) (row_data : List Nat)
  | updateRowRgb (row_number : Nat) (row_data_len : Nat) (row_data : List Nat)
  | getDisplayInfo
  | getDisplayInfoResponse (resp : GetDisplayInfoResponse)
  deriving DecidableEq

/-! ## Transport actor: read loop (`handle_serial_msgs`) -/

/-- State of the read loop: the accumulated raw byte buffer
(`incoming_serial_buffer`) and the messages published so far to the shared
inbound channel (`incoming_msg_tx`). -/
structure ReadLoopState where
  buffer : List Nat
  published : List SerialMessage
  deriving DecidableEq

/-- Index of the first `0x00` in the buffer, as computed by
`incoming_serial_buffer.iter().enumerate().find(|(_, elem)| **elem == 0x00)`
in `handle_serial_msgs`. -/
def firstZeroIdx : List Nat → Option Nat
  | [] => none
  | b :: rest => if b = 0 then some 0 else Option.map (· + 1) (firstZeroIdx rest)

/-- One iteration of the read loop in `handle_serial_msgs`, processing one
successful `read_buf` that appended `chunk` to the buffer: attempt a COBS
decode of the whole buffer; on success try to deserialize the payload
(deserializer `d` stands for `SerialMessage::try_from_bytes`), publish the
message if deserialization succeeds, then trim the buffer past the first
`0x00` delimiter. Returns `none` when the `expect` on the delimiter search
would panic. -/
def readLoopStep (d : List Nat → Option SerialMessage) (st : ReadLoopState)
    (chunk : List Nat) : Option ReadLoopState :=
  match cobsDecodeVec (st.buffer ++ chunk) with
  | none => some ⟨st.buffer ++ chunk, st.published⟩
  | some payload =>
    match firstZeroIdx (st.buffer ++ chunk) with
    | none => none
    | some i =>
      some ⟨(st.buffer ++ chunk).drop (i + 1), st.published ++ (d payload).toList⟩

/-- The read loop of `handle_serial_msgs` run over a sequence of successful
reads. -/
def readLoopRun (d : List Nat → Option SerialMessage) :
    ReadLoopState → List (List Nat) → Option ReadLoopState
  | st, [] => some st
  | st, c :: cs =>
    match readLoopStep d st c with
    | none => none
    | some st2 => readLoopRun d st2 cs

/-! ## Transport actor: write loop (`handle_requests`) -/

/-- Framing performed by `handle_requests` for one outbound message payload:
`cobs::encode_vec` followed by pushing a single `0x00`. -/
def encodeFrame (payload : List Nat) : List Nat :=
  cobsEncodeVec payload ++ [0]

/-- The frame that the write loop puts on the wire for message `msg`, given
the external serializer `to_bytes` (`SerialMessage::to_bytes`). -/
def handleRequestFrame (to_bytes : SerialMessage → List Nat)
    (msg : SerialMessage) : List Nat :=
  encodeFrame (to_bytes msg)

/-! ## `SerialConnection` facade (`serial/mod.rs`) -/

/-- Error kinds of `std::io::ErrorKind` used by the embedded code. -/
inductive IoErrorKind where
  | invalidInput
  | invalidData
  | connectionAborted
  | notConnected
  | unexpectedEof
  deriving DecidableEq

instance exceptDecEq {ε α : Type} [DecidableEq ε] [DecidableEq α] :
    DecidableEq (Except ε α) := fun x y =>
  match x, y with
  | .error a, .error b =>
    if h : a = b then isTrue (by rw [h])
    else isFalse (fun hc => h (by cases hc; rfl))
  | .ok a, .ok b =>
    if h : a = b then isTrue (by rw [h])
    else isFalse (fun hc => h (by cases hc; rfl))
  | .error _, .ok _ => isFalse (fun hc => Except.noConfusion hc)
  | .ok _, .error _ => isFalse (fun hc => Except.noConfusion hc)

/-- Modelled from the spec: `pack_bools_to_bytes` of the external
`megabit_serial_protocol` crate — bit-packs a boolean row, 8 pixels per
byte, least-significant bit first. `byte` is the partially assembled byte
and `k` the next bit position within it. -/
def packGo : Nat → Nat → List Bool → List Nat
  | byte, k, [] => if k = 0 then [] else [byte]
  | byte, k, b :: rest =>
    let byte2 := byte + (if b then 2 ^ k else 0)
    if k = 7 then byte2 :: packGo 0 0 rest
    else packGo byte2 (k + 1) rest

/-- Modelled from the spec: `pack_bools_to_bytes` (see `packGo`). -/
def pack_bools_to_bytes (bs : List Bool) : List Nat :=
  packGo 0 0 bs

/-- The message built by `SerialConnection::update_row` for a boolean row. -/
def updateRowMsg (row_number : Nat) (row_data : List Bool) : SerialMessage :=
  .updateRow row_number row_data.length (pack_bools_to_bytes row_data)

/-- The message built by `SerialConnection::update_row_rgb` for a row of
16-bit colors. -/
def updateRowRgbMsg (row_number : Nat) (row_data : List Nat) : SerialMessage :=
  .updateRowRgb row_number row_data.length row_data

/-- The receive phase of `SerialConnection::get_display_info`: read from the
shared inbound channel until a `GetDisplayInfoResponse` arrives; the list
holds the messages the channel delivers before it closes. -/
def recvDisplayInfo : List SerialMessage → Except IoErrorKind GetDisplayInfoResponse
  | [] => .error .connectionAborted
  | m :: rest =>
    match m with
    | .getDisplayInfoResponse inner => .ok inner
    | _ => recvDisplayInfo rest

/-- `SerialConnection::get_display_info`: enqueues a `GetDisplayInfo`
request (first component) and then scans the shared inbound channel for the
first `GetDisplayInfoResponse` (second component). -/
def SerialConnection.get_display_info (inbound : List SerialMessage) :
    SerialMessage × Except IoErrorKind GetDisplayInfoResponse :=
  (SerialMessage.getDisplayInfo, recvDisplayInfo inbound)

/-- Recognizer for `GetDisplayInfoResponse` messages. -/
def isGdiResponse : SerialMessage → Bool
  | .getDisplayInfoResponse _ => true
  | _ => false

/-! ## Screen buffer (`display.rs`) -/

/-- The two colors used to render boolean pixels on an RGB buffer. -/
structure MonocolorPalette where
  onColor : Nat
  offColor : Nat
  deriving DecidableEq

/-- The pixel storage: either booleans or 16-bit colors plus a palette. -/
inductive ScreenBufferKind where
  | monocolor (buffer : List Bool)
  | rgb555 (buffer : List Nat) (palette : MonocolorPalette)
  deriving DecidableEq

/-- `ScreenBuffer` of `display.rs`. -/
structure ScreenBuffer where
  buffer : ScreenBufferKind
  width : Nat
  height : Nat
  deriving DecidableEq

/-- `ScreenBuffer::new`. -/
def ScreenBuffer.new (width height : Nat) (rgb_monocolor : Option MonocolorPalette) :
    ScreenBuffer :=
  { buffer :=
      match rgb_monocolor with
      | some palette => .rgb555 (List.replicate (width * height) 0) palette
      | none => .monocolor (List.replicate (width * height) false)
    width := width
    height := height }

/-- `ScreenBuffer::is_rgb`. -/
def ScreenBuffer.is_rgb (sb : ScreenBuffer) : Bool :=
  match sb.buffer with
  | .rgb555 _ _ => true
  | .monocolor _ => false

/-- Length of the underlying pixel vector. -/
def ScreenBuffer.bufLen (sb : ScreenBuffer) : Nat :=
  match sb.buffer with
  | .monocolor b => b.length
  | .rgb555 b _ => b.length

/-- Well-formedness: the pixel vector has `width * height` entries. This is
established by `ScreenBuffer::new` and preserved by every mutation; the Rust
code indexes the vector relying on it. -/
def ScreenBuffer.wf (sb : ScreenBuffer) : Prop :=
  sb.bufLen = sb.width * sb.height

instance (sb : ScreenBuffer) : Decidable sb.wf :=
  Nat.decEq sb.bufLen (sb.width * sb.height)

/-- `ScreenBuffer::set_palette`. -/
def ScreenBuffer.set_palette (sb : ScreenBuffer) (palette : MonocolorPalette) :
    Except IoErrorKind ScreenBuffer :=
  match sb.buffer with
  | .rgb555 buf _ => .ok { sb with buffer := .rgb555 buf palette }
  | .monocolor _ => .error .invalidData

/-- The write `ScreenBuffer::set_cell` performs at flat index `index` once
its bounds check has passed: a monocolor buffer stores the boolean directly,
an RGB buffer stores the palette color for it. -/
def ScreenBuffer.setIdx (sb : ScreenBuffer) (index : Nat) (value : Bool) :
    ScreenBuffer :=
  match sb.buffer with
  | .monocolor buf => { sb with buffer := .monocolor (buf.set index value) }
  | .rgb555 buf palette =>
    { sb with
      buffer := .rgb555 (buf.set index (if value then palette.onColor else palette.offColor)) palette }

/-- `ScreenBuffer::set_cell`. -/
def ScreenBuffer.set_cell (sb : ScreenBuffer) (row col : Nat) (value : Bool) :
    Except IoErrorKind ScreenBuffer :=
  if sb.height ≤ row ∨ sb.width ≤ col then .error .invalidInput
  else .ok (sb.setIdx (row * sb.width + col) value)

/-- `ScreenBuffer::get_row`. -/
def ScreenBuffer.get_row (sb : ScreenBuffer) (row_number : Nat) :
    Except IoErrorKind (List Bool) :=
  if sb.height ≤ row_number then .error .invalidInput
  else
    match sb.buffer with
    | .monocolor buf => .ok ((buf.drop (row_number * sb.width)).take sb.width)
    | .rgb555 _ _ => .error .invalidData

/-- `ScreenBuffer::get_row_rgb`. -/
def ScreenBuffer.get_row_rgb (sb : ScreenBuffer) (row_number : Nat) :
    Except IoErrorKind (List Nat) :=
  if sb.height ≤ row_number then .error .invalidInput
  else
    match sb.buffer with
    | .rgb555 buf _ => .ok ((buf.drop (row_number * sb.width)).take sb.width)
    | .monocolor _ => .error .invalidData

/-! ## Host bridge (`wasm_env/host_functions/display.rs`) -/

/-- Outcome of one `write_region` call: the Rust function either panics (on
an out-of-range bitmap index), returns `Err` leaving the partially mutated
buffer behind (it takes `&mut ScreenBuffer`), or returns `Ok`. -/
inductive WriteRegionResult where
  | panicked
  | errored (e : IoErrorKind) (sb : ScreenBuffer)
  | ok (sb : ScreenBuffer)
  deriving DecidableEq

/-- The cells visited by `write_region`'s nested loops, in row-major order:
`for row in y..(y + h) { for col in x..(x + w) { ... } }`. -/
def rectCells (x y w h : Nat) : List (Nat × Nat) :=
  (List.range' y h).flatMap fun row => (List.range' x w).map fun col => (row, col)

/-- The bitmap bit index `write_region` computes for cell `rc`:
`idx = (col - position_x) + (width * (row - position_y))`. -/
def wrIdx (x y w : Nat) (rc : Nat × Nat) : Nat :=
  (rc.2 - x) + w * (rc.1 - y)

/-- The bitmap read `write_region` performs for cell `(row, col)`:
`buffer_data[(idx / 8) as usize] & (1 << (idx % 8)) != 0`; `none` when the
byte index is out of range (a panic in Rust). -/
def wrReadBit (bitmap : List Nat) (x y w row col : Nat) : Option Bool :=
  Option.map (fun byte => byte &&& (1 <<< (wrIdx x y w (row, col) % 8)) != 0)
    (bitmap.get? (wrIdx x y w (row, col) / 8))

/-- Worker for `write_region`: walk the rectangle's cells, reading the
packed bitmap and writing each cell via `ScreenBuffer::set_cell`; the first
bitmap access out of range panics, the first out-of-bounds cell aborts with
that error and the buffer as mutated so far. -/
def wrGo (bitmap : List Nat) (x y w : Nat) :
    ScreenBuffer → List (Nat × Nat) → WriteRegionResult
  | sb, [] => .ok sb
  | sb, rc :: rest =>
    match wrReadBit bitmap x y w rc.1 rc.2 with
    | none => .panicked
    | some v =>
      match sb.set_cell rc.1 rc.2 v with
      | .error e => .errored e sb
      | .ok sb2 => wrGo bitmap x y w sb2 rest

/-- `write_region` of the host bridge. -/
def write_region (sb : ScreenBuffer) (position_x position_y width height : Nat)
    (buffer_data : List Nat) : WriteRegionResult :=
  wrGo buffer_data position_x position_y width sb
    (rectCells position_x position_y width height)

/-- `render` of the host bridge: for each requested row, read it from the
buffer in its current mode and issue the corresponding update message
through the serial connection; returns the messages issued, in order. -/
def render (sb : ScreenBuffer) : List Nat → Except IoErrorKind (List SerialMessage)
  | [] => .ok []
  | row_number :: rest =>
    if sb.is_rgb then
      match sb.get_row_rgb row_number with
      | .error e => .error e
      | .ok row_data =>
        match render sb rest with
        | .error e => .error e
        | .ok msgs => .ok (updateRowRgbMsg row_number row_data :: msgs)
    else
      match sb.get_row row_number with
      | .error e => .error e
      | .ok row_data =>
        match render sb rest with
        | .error e => .error e
        | .ok msgs => .ok (updateRowMsg row_number row_data :: msgs)

/-! ## Specification-side helpers for `write_region` theorems -/

/-- In-bounds test for a cell, matching `set_cell`'s bounds check. -/
def cellInBounds (sb : ScreenBuffer) (rc : Nat × Nat) : Bool :=
  decide (rc.1 < sb.height) && decide (rc.2 < sb.width)

/-- The boolean `write_region` writes at cell `rc`, as a total function of
the bitmap (out-of-range reads defaulted to false; used only where they are
in range). -/
def wrBitVal (bitmap : List Nat) (x y w : Nat) (rc : Nat × Nat) : Bool :=
  match bitmap.get? (wrIdx x y w rc / 8) with
  | some byte => byte &&& (1 <<< (wrIdx x y w rc % 8)) != 0
  | none => false

/-- Apply the writes `write_region` performs for `cells`, in order, with no
rollback. -/
def wrApply (bitmap : List Nat) (x y w : Nat) (sb : ScreenBuffer)
    (cells : List (Nat × Nat)) : ScreenBuffer :=
  cells.foldl (fun s rc => s.setIdx (rc.1 * s.width + rc.2) (wrBitVal bitmap x y w rc)) sb

/-- The raw value stored at flat index `i`, tagged by representation. -/
def ScreenBuffer.storedAt (sb : ScreenBuffer) (i : Nat) : Option (Sum Bool Nat) :=
  match sb.buffer with
  | .monocolor b => Option.map Sum.inl (b.get? i)
  | .rgb555 b _ => Option.map Sum.inr (b.get? i)

/-- What storing boolean `v` leaves in a cell of `sb`: the boolean itself
for a monocolor buffer, the palette color for an RGB buffer. -/
def paintValue (sb : ScreenBuffer) (v : Bool) : Sum Bool Nat :=
  match sb.buffer with
  | .monocolor _ => Sum.inl v
  | .rgb555 _ palette => Sum.inr (if v then palette.onColor else palette.offColor)

/-- The value `write_region` intends to leave at cell `rc`. -/
def intendedCell (sb : ScreenBuffer) (bitmap : List Nat) (x y w : Nat)
    (rc : Nat × Nat) : Sum Bool Nat :=
  paintValue sb (wrBitVal bitmap x y w rc)

/-- A concrete stand-in for `SerialMessage::try_from_bytes`, used to
instantiate the read-loop theorems at concrete inputs: payload `[1]` is a
`Ping`, payload `[2]` is `SetLedState(true)`. -/
def c1Decoder (b : List Nat) : Option SerialMessage :=
  if b = [1] then some .ping
  else if b = [2] then some (.setLedState true)
  else none

/-- Expected read-loop state after `cum` bytes of the two-frame stream
`(s1 ++ [0]) ++ (s2 ++ [0])` have been received: inside frame 1, the bytes
so far are buffered and nothing is published; once frame 1 is complete but
frame 2 is not, frame 1 has been published and frame 2's bytes so far are
buffered; once everything is received both messages are published and the
buffer is empty. -/
def c1ExpState (s1 s2 : List Nat) (m1 m2 : SerialMessage) (cum : Nat) :
    ReadLoopState :=
  if cum < (s1 ++ [0]).length then
    ⟨((s1 ++ [0]) ++ (s2 ++ [0])).take cum, []⟩
  else if cum < ((s1 ++ [0]) ++ (s2 ++ [0])).length then
    ⟨(s2 ++ [0]).take (cum - (s1 ++ [0]).length), [m1]⟩
  else ⟨[], [m1, m2]⟩

/-! ## Lemmas: COBS codec -/

-- The stuffed output contains no zero byte.
theorem cobsGo_not_mem_zero (data : List Nat) :
    ∀ block, 0 ∉ block → 0 ∉ cobsGo block data := by
  induction data with
  | nil =>
    intro block hb
    simp only [cobsGo, List.mem_cons]
    rintro (h | h)
    · omega
    · exact hb h
  | cons b rest ih =>
    intro block hb
    simp only [cobsGo]
    by_cases hb0 : b = 0
    · simp only [if_pos hb0, List.mem_append, List.mem_cons]
      rintro ((h | h) | h)
      · omega
      · exact hb h
      · exact ih [] (List.not_mem_nil 0) h
    · by_cases hlen : block.length = 253
      · simp only [if_neg hb0, if_pos hlen, List.cons_append, List.mem_cons,
          List.mem_append]
        rintro (h | (h | h) | h)
        · omega
        · exact hb h
        · exact hb0 ((by simpa using h : (0:Nat) = b)).symm
        · exact ih [] (List.not_mem_nil 0) h
      · simp only [if_neg hb0, if_neg hlen]
        refine ih (block ++ [b]) ?_
        simp only [List.mem_append, List.mem_singleton]
        rintro (h | h)
        · exact hb h
        · exact hb0 h.symm

theorem cobsEncodeVec_not_mem_zero (p : List Nat) : 0 ∉ cobsEncodeVec p :=
  cobsGo_not_mem_zero p [] (List.not_mem_nil 0)

theorem cobsGo_ne_nil (data : List Nat) : ∀ block, cobsGo block data ≠ [] := by
  induction data with
  | nil => intro block; simp [cobsGo]
  | cons b rest ih =>
    intro block
    simp only [cobsGo]
    by_cases hb0 : b = 0
    · simp [if_pos hb0]
    · by_cases hlen : block.length = 253
      · simp [if_neg hb0, if_pos hlen]
      · simp only [if_neg hb0, if_neg hlen]
        exact ih (block ++ [b])

-- Unstuffing walks the pending block literally.
theorem cobsUnstuffGo_block (sep tail : List Nat) :
    ∀ block : List Nat, 0 ∉ block →
      cobsUnstuffGo block.length sep (block ++ tail)
        = Option.map (fun t => block ++ t) (cobsUnstuffGo 0 sep tail) := by
  intro block
  induction block with
  | nil =>
    intro _
    simp only [List.length_nil, List.nil_append]
    rcases cobsUnstuffGo 0 sep tail with _ | t <;> simp
  | cons a bs ih =>
    intro h
    have ha : a ≠ 0 := fun h0 => h (h0 ▸ List.mem_cons_self a bs)
    have hbs : 0 ∉ bs := fun h0 => h (List.mem_cons_of_mem a h0)
    simp only [List.length_cons, List.cons_append, cobsUnstuffGo, if_neg ha,
      List.append_eq]
    rw [ih hbs, Option.map_map]
    rcases cobsUnstuffGo 0 sep tail with _ | t <;> simp

-- Unstuffing a lone final block.
theorem cobsUnstuffGo_self (sep : List Nat) :
    ∀ block : List Nat, 0 ∉ block →
      cobsUnstuffGo block.length sep block = some block := by
  intro block
  induction block with
  | nil => intro _; simp [cobsUnstuffGo]
  | cons a bs ih =>
    intro h
    have ha : a ≠ 0 := fun h0 => h (h0 ▸ List.mem_cons_self a bs)
    have hbs : 0 ∉ bs := fun h0 => h (List.mem_cons_of_mem a h0)
    simp [List.length_cons, cobsUnstuffGo, if_neg ha, ih hbs]

-- At a group boundary the pending separator is emitted before the rest.
theorem cobsUnstuffGo_sep (sep : List Nat) (c : Nat) (r : List Nat) (hc : c ≠ 0) :
    cobsUnstuffGo 0 sep (c :: r)
      = Option.map (fun t => sep ++ t) (cobsUnstuffGo 0 [] (c :: r)) := by
  simp only [cobsUnstuffGo, if_neg hc]
  rcases cobsUnstuffGo (c - 1) (if c = 255 then [] else [0]) r with _ | t <;> simp

-- Round trip of the stuffed portion of a frame.
theorem cobsUnstuffGo_cobsGo (data : List Nat) :
    ∀ block, 0 ∉ block → block.length ≤ 253 →
      cobsUnstuffGo 0 [] (cobsGo block data) = some (block ++ data) := by
  induction data with
  | nil =>
    intro block hb hlen
    simp only [cobsGo, cobsUnstuffGo, if_neg (by omega : ¬block.length + 1 = 0),
      Nat.add_sub_cancel, cobsUnstuffGo_self _ block hb]
    simp
  | cons b rest ih =>
    intro block hb hlen
    by_cases hb0 : b = 0
    · subst hb0
      simp only [cobsGo, if_pos rfl]
      have hne : cobsGo [] rest ≠ [] := cobsGo_ne_nil rest []
      obtain ⟨c, r, hG⟩ := List.exists_cons_of_ne_nil hne
      have hc : c ≠ 0 := by
        intro h0
        exact cobsGo_not_mem_zero rest [] (List.not_mem_nil 0)
          (by rw [hG, h0]; exact List.mem_cons_self 0 r)
      have hb255 : ¬block.length + 1 = 255 := by omega
      simp only [List.cons_append, cobsUnstuffGo,
        if_neg (by omega : ¬block.length + 1 = 0), Nat.add_sub_cancel,
        if_neg hb255, List.append_eq]
      rw [cobsUnstuffGo_block _ _ block hb, hG, cobsUnstuffGo_sep [0] c r hc,
        ← hG, ih [] (List.not_mem_nil 0) (by simp)]
      simp
    · by_cases hlen253 : block.length = 253
      · simp only [cobsGo, if_neg hb0, if_pos hlen253]
        have hblen : (block ++ [b]).length = 254 := by
          simp [List.length_append, hlen253]
        have hbb : 0 ∉ block ++ [b] := by
          simp only [List.mem_append, List.mem_singleton]
          rintro (h | h)
          · exact hb h
          · exact hb0 h.symm
        simp only [List.cons_append, cobsUnstuffGo,
          if_neg (by omega : ¬(255:Nat) = 0), List.append_eq, if_true,
          eq_self_iff_true]
        rw [show (255:Nat) - 1 = 254 from rfl, ← hblen,
          cobsUnstuffGo_block _ _ (block ++ [b]) hbb,
          ih [] (List.not_mem_nil 0) (by simp)]
        simp
      · simp only [cobsGo, if_neg hb0, if_neg hlen253]
        rw [ih (block ++ [b])
          (by
            simp only [List.mem_append, List.mem_singleton]
            rintro (h | h)
            · exact hb h
            · exact hb0 h.symm)
          (by simp only [List.length_append, List.length_cons, List.length_nil]; omega)]
        simp

theorem cobsUnstuff_cobsEncodeVec (p : List Nat) :
    cobsUnstuff (cobsEncodeVec p) = some p := by
  have hne : cobsEncodeVec p ≠ [] := cobsGo_ne_nil p []
  obtain ⟨c, r, hG⟩ := List.exists_cons_of_ne_nil hne
  have := cobsUnstuffGo_cobsGo p [] (List.not_mem_nil 0) (by simp)
  rw [show cobsGo [] p = cobsEncodeVec p from rfl, hG] at this
  rw [hG]
  simpa [cobsUnstuff] using this

/-! ## Lemmas: frame decode over the read buffer -/

theorem takeWhile_append_zero (r : List Nat) :
    ∀ s : List Nat, 0 ∉ s → (s ++ 0 :: r).takeWhile (fun b => b != 0) = s := by
  intro s
  induction s with
  | nil => intro _; simp [List.takeWhile]
  | cons a s' ih =>
    intro h
    have ha : a ≠ 0 := fun h0 => h (h0 ▸ List.mem_cons_self a s')
    have hs' : 0 ∉ s' := fun h0 => h (List.mem_cons_of_mem a h0)
    simp only [List.cons_append, List.takeWhile]
    rw [show (a != 0) = true by simpa using ha]
    simp [ih hs']

theorem takeWhile_self_of_no_zero (l : List Nat) (h : 0 ∉ l) :
    l.takeWhile (fun b => b != 0) = l := by
  induction l with
  | nil => rfl
  | cons a l' ih =>
    have ha : a ≠ 0 := fun h0 => h (h0 ▸ List.mem_cons_self a l')
    have hl' : 0 ∉ l' := fun h0 => h (List.mem_cons_of_mem a h0)
    simp only [List.takeWhile]
    rw [show (a != 0) = true by simpa using ha]
    simp [ih hl']

theorem cobsDecodeVec_of_no_zero (buf : List Nat) (h : 0 ∉ buf) :
    cobsDecodeVec buf = none := by
  simp [cobsDecodeVec, takeWhile_self_of_no_zero buf h]

theorem cobsDecodeVec_frame (s r : List Nat) (hs : 0 ∉ s) :
    cobsDecodeVec (s ++ 0 :: r) = cobsUnstuff s := by
  have hlen : s.length ≠ (s ++ 0 :: r).length := by
    simp only [List.length_append, List.length_cons]; omega
  simp [cobsDecodeVec, takeWhile_append_zero r s hs, if_neg hlen]

theorem firstZeroIdx_append_zero (r : List Nat) :
    ∀ s : List Nat, 0 ∉ s → firstZeroIdx (s ++ 0 :: r) = some s.length := by
  intro s
  induction s with
  | nil => intro _; simp [firstZeroIdx]
  | cons a s' ih =>
    intro h
    have ha : a ≠ 0 := fun h0 => h (h0 ▸ List.mem_cons_self a s')
    have hs' : 0 ∉ s' := fun h0 => h (List.mem_cons_of_mem a h0)
    simp [firstZeroIdx, if_neg ha, ih hs']

theorem firstZeroIdx_isSome_of_mem (l : List Nat) (h : 0 ∈ l) :
    (firstZeroIdx l).isSome := by
  induction l with
  | nil => cases h
  | cons a l' ih =>
    by_cases ha : a = 0
    · simp [firstZeroIdx, ha]
    · have : 0 ∈ l' := by
        rcases List.mem_cons.mp h with h0 | h0
        · exact absurd h0.symm ha
        · exact h0
      obtain ⟨i, hi⟩ := Option.isSome_iff_exists.mp (ih this)
      simp [firstZeroIdx, if_neg ha, hi]

theorem drop_append_zero (s r : List Nat) :
    (s ++ 0 :: r).drop (s.length + 1) = r := by
  have : s ++ 0 :: r = (s ++ [0]) ++ r := by simp
  rw [this, show s.length + 1 = (s ++ [0]).length by simp]
  exact List.drop_left (s ++ [0]) r

/-! ## Lemmas: read loop steps -/

theorem readLoopStep_accum (d : List Nat → Option SerialMessage)
    (st : ReadLoopState) (c : List Nat) (h : 0 ∉ st.buffer ++ c) :
    readLoopStep d st c = some ⟨st.buffer ++ c, st.published⟩ := by
  simp [readLoopStep, cobsDecodeVec_of_no_zero _ h]

theorem readLoopStep_frame (d : List Nat → Option SerialMessage)
    (st : ReadLoopState) (c s r : List Nat) (p : List Nat)
    (hb : st.buffer ++ c = s ++ 0 :: r) (hs : 0 ∉ s)
    (hu : cobsUnstuff s = some p) :
    readLoopStep d st c = some ⟨r, st.published ++ (d p).toList⟩ := by
  simp only [readLoopStep, hb, cobsDecodeVec_frame s r hs, hu,
    firstZeroIdx_append_zero r s hs, drop_append_zero]

/-! ## Lemmas: inbound channel scan of `get_display_info` -/

theorem recvDisplayInfo_skip (l : List SerialMessage) :
    ∀ pre : List SerialMessage, (∀ m ∈ pre, isGdiResponse m = false) →
      recvDisplayInfo (pre ++ l) = recvDisplayInfo l := by
  intro pre
  induction pre with
  | nil => intro _; rfl
  | cons m pre' ih =>
    intro h
    have hm : isGdiResponse m = false := h m (List.mem_cons_self m pre')
    have hpre' : ∀ m ∈ pre', isGdiResponse m = false :=
      fun m' hm' => h m' (List.mem_cons_of_mem m hm')
    cases m with
    | getDisplayInfoResponse resp => simp [isGdiResponse] at hm
    | ping => simpa [recvDisplayInfo] using ih hpre'
    | setLedState s => simpa [recvDisplayInfo] using ih hpre'
    | setRgbState r g b => simpa [recvDisplayInfo] using ih hpre'
    | updateRow a b c => simpa [recvDisplayInfo] using ih hpre'
    | updateRowRgb a b c => simpa [recvDisplayInfo] using ih hpre'
    | getDisplayInfo => simpa [recvDisplayInfo] using ih hpre'

theorem recvDisplayInfo_closed (msgs : List SerialMessage)
    (h : ∀ m ∈ msgs, isGdiResponse m = false) :
    recvDisplayInfo msgs = .error .connectionAborted := by
  have := recvDisplayInfo_skip [] msgs h
  simpa [recvDisplayInfo] using this

/-! ## Claim theorems for the transport actor -/

/-- C5: for every outbound message, the write loop produces a frame equal to
the byte-stuffed serialized message bytes followed by a single trailing
`0x00` delimiter, and the byte-stuffed portion contains no `0x00` byte. -/
theorem write_loop_framing_claim :
    ∀ (to_bytes : SerialMessage → List Nat) (msg : SerialMessage),
      handleRequestFrame to_bytes msg = cobsEncodeVec (to_bytes msg) ++ [0]
      ∧ 0 ∉ cobsEncodeVec (to_bytes msg)
      ∧ (handleRequestFrame to_bytes msg).count 0 = 1
      ∧ (handleRequestFrame to_bytes msg).getLast? = some 0 := by
  intro to_bytes msg
  refine ⟨rfl, cobsEncodeVec_not_mem_zero _, ?_, ?_⟩
  · simp [handleRequestFrame, encodeFrame, List.count_append,
      List.count_eq_zero.mpr (cobsEncodeVec_not_mem_zero (to_bytes msg))]
  · simp [handleRequestFrame, encodeFrame]

/-- C8: whenever byte-unstuffing of the accumulated read buffer succeeds,
the buffer contains at least one `0x00` byte, so the delimiter search behind
the `expect` in `handle_serial_msgs` always finds an index and the read loop
never panics on any inbound byte sequence. -/
theorem read_loop_no_panic_claim :
    (∀ buf p, cobsDecodeVec buf = some p → 0 ∈ buf)
    ∧ ∀ (d : List Nat → Option SerialMessage) (st : ReadLoopState) (c : List Nat),
        (readLoopStep d st c).isSome := by
  constructor
  · intro buf p h
    by_contra h0
    rw [cobsDecodeVec_of_no_zero buf h0] at h
    cases h
  · intro d st c
    cases hdec : cobsDecodeVec (st.buffer ++ c) with
    | none => simp [readLoopStep, hdec]
    | some payload =>
      have hz : 0 ∈ st.buffer ++ c := by
        by_contra h0
        rw [cobsDecodeVec_of_no_zero _ h0] at hdec
        cases hdec
      obtain ⟨i, hi⟩ :=
        Option.isSome_iff_exists.mp (firstZeroIdx_isSome_of_mem _ hz)
      simp [readLoopStep, hdec, hi]

/-- Witness for C8 at a concrete buffer holding one complete frame. -/
theorem read_loop_no_panic_witness :
    (0 ∈ ([2, 5, 0] : List Nat))
    ∧ (readLoopStep (fun _ => none) ⟨[], []⟩ [2, 5, 0]).isSome :=
  ⟨read_loop_no_panic_claim.1 [2, 5, 0] [5] (by decide),
   read_loop_no_panic_claim.2 (fun _ => none) ⟨[], []⟩ [2, 5, 0]⟩

/-- C6: an inbound frame whose byte-stuffing decodes but whose payload fails
message deserialization is dropped: nothing is published, the frame's bytes
are discarded from the buffer, and the loop continues without terminating. -/
theorem malformed_frame_dropped_claim :
    ∀ (d : List Nat → Option SerialMessage) (buffer : List Nat)
      (pub : List SerialMessage) (c s r p : List Nat),
      buffer ++ c = s ++ 0 :: r → 0 ∉ s → cobsUnstuff s = some p → d p = none →
      readLoopStep d ⟨buffer, pub⟩ c = some ⟨r, pub⟩
      ∧ ∀ cs, readLoopRun d ⟨buffer, pub⟩ (c :: cs) = readLoopRun d ⟨r, pub⟩ cs := by
  intro d buffer pub c s r p hb hs hu hd
  have hstep : readLoopStep d ⟨buffer, pub⟩ c = some ⟨r, pub⟩ := by
    have := readLoopStep_frame d ⟨buffer, pub⟩ c s r p hb hs hu
    rw [hd] at this
    simpa using this
  exact ⟨hstep, fun cs => by simp [readLoopRun, hstep]⟩

/-- Witness for C6: the frame `[2,5,0]` carries payload `[5]`, which the
deserializer rejects; the step drops it and the run continues. -/
theorem malformed_frame_dropped_witness :
    readLoopStep (fun _ => none) ⟨[], []⟩ [2, 5, 0] = some ⟨[], []⟩
    ∧ readLoopRun (fun _ => none) ⟨[], []⟩ [[2, 5, 0]]
        = readLoopRun (fun _ => none) ⟨[], []⟩ [] :=
  ⟨(malformed_frame_dropped_claim (fun _ => none) [] [] [2, 5, 0] [2, 5] [] [5]
      (by decide) (by decide) (by decide) rfl).1,
   (malformed_frame_dropped_claim (fun _ => none) [] [] [2, 5, 0] [2, 5] [] [5]
      (by decide) (by decide) (by decide) rfl).2 []⟩

/-- C7: `get_display_info` first enqueues a `GetDisplayInfo` message, then
receives from the shared inbound channel skipping every message that is not
a `GetDisplayInfoResponse`, returning the first such response; if the
channel closes before one arrives it fails with a connection-aborted
error. -/
theorem get_display_info_claim :
    (∀ (pre : List SerialMessage) (resp : GetDisplayInfoResponse)
        (rest : List SerialMessage),
      (∀ m ∈ pre, isGdiResponse m = false) →
      SerialConnection.get_display_info
          (pre ++ SerialMessage.getDisplayInfoResponse resp :: rest)
        = (SerialMessage.getDisplayInfo, .ok resp))
    ∧ ∀ msgs : List SerialMessage,
        (∀ m ∈ msgs, isGdiResponse m = false) →
        SerialConnection.get_display_info msgs
          = (SerialMessage.getDisplayInfo, .error .connectionAborted) := by
  constructor
  · intro pre resp rest hpre
    unfold SerialConnection.get_display_info
    rw [recvDisplayInfo_skip _ pre hpre]
    rfl
  · intro msgs hmsgs
    unfold SerialConnection.get_display_info
    rw [recvDisplayInfo_closed msgs hmsgs]

/-- Witness for C7: one non-response is skipped before the response; a
channel with only non-responses yields the connection-aborted error. -/
theorem get_display_info_witness :
    SerialConnection.get_display_info
        [SerialMessage.ping,
         SerialMessage.getDisplayInfoResponse ⟨16, 16, .monocolor⟩]
      = (SerialMessage.getDisplayInfo, .ok ⟨16, 16, .monocolor⟩)
    ∧ SerialConnection.get_display_info [SerialMessage.ping]
      = (SerialMessage.getDisplayInfo, .error .connectionAborted) :=
  ⟨get_display_info_claim.1 [SerialMessage.ping] ⟨16, 16, .monocolor⟩ []
      (by decide),
   get_display_info_claim.2 [SerialMessage.ping] (by decide)⟩

set_option maxRecDepth 4000 in
/-- C2: on a 16x16 monocolor buffer, `write_region(0,0,8,1,[0xFF])` sets
the first 8 cells of row 0 to true and leaves every other cell false, and a
subsequent `render([0])` issues exactly one `UpdateRow` message with
row number 0, row data length 16, and the 16 booleans bit-packed into the
bytes `[0xFF, 0x00]`. -/
theorem monocolor_scenario_claim :
    write_region (ScreenBuffer.new 16 16 none) 0 0 8 1 [255]
      = .ok ⟨.monocolor (List.replicate 8 true ++ List.replicate 248 false), 16, 16⟩
    ∧ render
        ⟨.monocolor (List.replicate 8 true ++ List.replicate 248 false), 16, 16⟩ [0]
      = .ok [SerialMessage.updateRow 0 16 [255, 0]]
    ∧ pack_bools_to_bytes (List.replicate 8 true ++ List.replicate 8 false)
      = [255, 0] := by
  refine ⟨by decide, by decide, by decide⟩

/-- C3: for every screen buffer with dimensions at least 1x1, `set_cell`
fails with the out-of-bounds error exactly when `row >= height` or
`col >= width`; `get_row` and `get_row_rgb` fail with the out-of-bounds
error whenever the row index reaches `height`; and in-bounds calls on the
matching representation succeed. -/
theorem screen_buffer_bounds_claim :
    ∀ (sb : ScreenBuffer) (row col n : Nat) (v : Bool),
      1 ≤ sb.width → 1 ≤ sb.height →
      ((sb.set_cell row col v = .error .invalidInput)
          ↔ (sb.height ≤ row ∨ sb.width ≤ col))
      ∧ (sb.height ≤ n →
          sb.get_row n = .error .invalidInput
          ∧ sb.get_row_rgb n = .error .invalidInput)
      ∧ (row < sb.height → col < sb.width →
          sb.set_cell row col v = .ok (sb.setIdx (row * sb.width + col) v))
      ∧ (n < sb.height →
          (sb.is_rgb = false → ∃ l, sb.get_row n = .ok l)
          ∧ (sb.is_rgb = true → ∃ l, sb.get_row_rgb n = .ok l)) := by
  intro sb row col n v hw hh
  refine ⟨?_, ?_, ?_, ?_⟩
  · unfold ScreenBuffer.set_cell
    by_cases hc : sb.height ≤ row ∨ sb.width ≤ col
    · simp [if_pos hc, hc]
    · simp [if_neg hc, hc]
  · intro hn
    constructor
    · unfold ScreenBuffer.get_row
      rw [if_pos hn]
    · unfold ScreenBuffer.get_row_rgb
      rw [if_pos hn]
  · intro hr hc
    unfold ScreenBuffer.set_cell
    rw [if_neg (by omega : ¬(sb.height ≤ row ∨ sb.width ≤ col))]
  · intro hn
    constructor
    · intro hmono
      unfold ScreenBuffer.get_row
      rw [if_neg (by omega : ¬sb.height ≤ n)]
      rcases hsb : sb.buffer with buf | ⟨buf, pal⟩
      · exact ⟨_, rfl⟩
      · exfalso
        simp [ScreenBuffer.is_rgb, hsb] at hmono
    · intro hrgb
      unfold ScreenBuffer.get_row_rgb
      rw [if_neg (by omega : ¬sb.height ≤ n)]
      rcases hsb : sb.buffer with buf | ⟨buf, pal⟩
      · exfalso
        simp [ScreenBuffer.is_rgb, hsb] at hrgb
      · exact ⟨_, rfl⟩

/-- Witness for C3 on a concrete 2x2 monocolor buffer. -/
theorem screen_buffer_bounds_witness :
    ((ScreenBuffer.new 2 2 none).set_cell 0 0 true = .error .invalidInput
        ↔ ((ScreenBuffer.new 2 2 none).height ≤ 0
            ∨ (ScreenBuffer.new 2 2 none).width ≤ 0))
    ∧ ((ScreenBuffer.new 2 2 none).height ≤ 5 →
        (ScreenBuffer.new 2 2 none).get_row 5 = .error .invalidInput
        ∧ (ScreenBuffer.new 2 2 none).get_row_rgb 5 = .error .invalidInput)
    ∧ (0 < (ScreenBuffer.new 2 2 none).height →
        0 < (ScreenBuffer.new 2 2 none).width →
        (ScreenBuffer.new 2 2 none).set_cell 0 0 true
          = .ok ((ScreenBuffer.new 2 2 none).setIdx
              (0 * (ScreenBuffer.new 2 2 none).width + 0) true))
    ∧ (5 < (ScreenBuffer.new 2 2 none).height →
        ((ScreenBuffer.new 2 2 none).is_rgb = false →
          ∃ l, (ScreenBuffer.new 2 2 none).get_row 5 = .ok l)
        ∧ ((ScreenBuffer.new 2 2 none).is_rgb = true →
          ∃ l, (ScreenBuffer.new 2 2 none).get_row_rgb 5 = .ok l)) :=
  screen_buffer_bounds_claim (ScreenBuffer.new 2 2 none) 0 0 5 true
    (by decide) (by decide)

/-- C4: for every screen buffer and in-bounds row index, `get_row` fails
with the representation-mismatch error on an RGB buffer, `get_row_rgb`
fails with it on a monocolor buffer, and `set_palette` fails with it on a
monocolor buffer, succeeding and replacing the palette exactly on RGB
buffers. -/
theorem representation_mismatch_claim :
    ∀ (sb : ScreenBuffer) (n : Nat) (p : MonocolorPalette),
      n < sb.height →
      (sb.is_rgb = true → sb.get_row n = .error .invalidData)
      ∧ (sb.is_rgb = false → sb.get_row_rgb n = .error .invalidData)
      ∧ (sb.is_rgb = false → sb.set_palette p = .error .invalidData)
      ∧ (sb.is_rgb = true →
          ∃ buf pal0, sb.buffer = .rgb555 buf pal0
            ∧ sb.set_palette p = .ok { sb with buffer := .rgb555 buf p }) := by
  intro sb n p hn
  refine ⟨?_, ?_, ?_, ?_⟩
  · intro hrgb
    unfold ScreenBuffer.get_row
    rw [if_neg (by omega : ¬sb.height ≤ n)]
    rcases hsb : sb.buffer with buf | ⟨buf, pal⟩
    · exfalso
      simp [ScreenBuffer.is_rgb, hsb] at hrgb
    · rfl
  · intro hmono
    unfold ScreenBuffer.get_row_rgb
    rw [if_neg (by omega : ¬sb.height ≤ n)]
    rcases hsb : sb.buffer with buf | ⟨buf, pal⟩
    · rfl
    · exfalso
      simp [ScreenBuffer.is_rgb, hsb] at hmono
  · intro hmono
    unfold ScreenBuffer.set_palette
    rcases hsb : sb.buffer with buf | ⟨buf, pal⟩
    · rfl
    · exfalso
      simp [ScreenBuffer.is_rgb, hsb] at hmono
  · intro hrgb
    rcases hsb : sb.buffer with buf | ⟨buf, pal⟩
    · exfalso
      simp [ScreenBuffer.is_rgb, hsb] at hrgb
    · refine ⟨buf, pal, rfl, ?_⟩
      unfold ScreenBuffer.set_palette
      rw [hsb]

/-! ## Lemmas: `write_region` -/

theorem list_get?_set_self {α : Type} :
    ∀ (l : List α) (i : Nat) (a : α), i < l.length → (l.set i a).get? i = some a := by
  intro l
  induction l with
  | nil => intro i a h; simp at h
  | cons b l' ih =>
    intro i a h
    cases i with
    | zero => rfl
    | succ j =>
      simp only [List.set, List.get?]
      exact ih j a (by simpa using h)

theorem list_get?_set_ne {α : Type} :
    ∀ (l : List α) (i j : Nat) (a : α), i ≠ j → (l.set i a).get? j = l.get? j := by
  intro l
  induction l with
  | nil => intro i j a _; simp
  | cons b l' ih =>
    intro i j a hij
    cases i with
    | zero =>
      cases j with
      | zero => exact absurd rfl hij
      | succ j' => rfl
    | succ i' =>
      cases j with
      | zero => rfl
      | succ j' =>
        simp only [List.set, List.get?]
        exact ih i' j' a (fun h => hij (by rw [h]))

theorem setIdx_width (sb : ScreenBuffer) (i : Nat) (v : Bool) :
    (sb.setIdx i v).width = sb.width := by
  rcases sb with ⟨k, w, h⟩
  cases k <;> rfl

theorem setIdx_height (sb : ScreenBuffer) (i : Nat) (v : Bool) :
    (sb.setIdx i v).height = sb.height := by
  rcases sb with ⟨k, w, h⟩
  cases k <;> rfl

theorem setIdx_bufLen (sb : ScreenBuffer) (i : Nat) (v : Bool) :
    (sb.setIdx i v).bufLen = sb.bufLen := by
  rcases sb with ⟨k, w, h⟩
  cases k <;> simp [ScreenBuffer.setIdx, ScreenBuffer.bufLen]

theorem setIdx_wf (sb : ScreenBuffer) (i : Nat) (v : Bool) (h : sb.wf) :
    (sb.setIdx i v).wf := by
  unfold ScreenBuffer.wf at h ⊢
  rw [setIdx_bufLen, setIdx_width, setIdx_height]
  exact h

theorem cellInBounds_setIdx (sb : ScreenBuffer) (i : Nat) (v : Bool) :
    cellInBounds (sb.setIdx i v) = cellInBounds sb := by
  funext rc
  unfold cellInBounds
  rw [setIdx_width, setIdx_height]

theorem paintValue_setIdx (sb : ScreenBuffer) (i : Nat) (v0 v : Bool) :
    paintValue (sb.setIdx i v0) v = paintValue sb v := by
  rcases sb with ⟨k, w, h⟩
  cases k <;> rfl

theorem setIdx_storedAt_self (sb : ScreenBuffer) (i : Nat) (v : Bool)
    (h : i < sb.bufLen) :
    (sb.setIdx i v).storedAt i = some (paintValue sb v) := by
  rcases sb with ⟨k, w, hh⟩
  cases k with
  | monocolor b =>
    simp only [ScreenBuffer.setIdx, ScreenBuffer.storedAt, paintValue]
    rw [list_get?_set_self b i v (by simpa [ScreenBuffer.bufLen] using h)]
    rfl
  | rgb555 b pal =>
    simp only [ScreenBuffer.setIdx, ScreenBuffer.storedAt, paintValue]
    rw [list_get?_set_self b i _ (by simpa [ScreenBuffer.bufLen] using h)]
    rfl

theorem setIdx_storedAt_ne (sb : ScreenBuffer) (i j : Nat) (v : Bool)
    (hij : i ≠ j) : (sb.setIdx i v).storedAt j = sb.storedAt j := by
  rcases sb with ⟨k, w, hh⟩
  cases k with
  | monocolor b =>
    simp only [ScreenBuffer.setIdx, ScreenBuffer.storedAt]
    rw [list_get?_set_ne b i j v hij]
  | rgb555 b pal =>
    simp only [ScreenBuffer.setIdx, ScreenBuffer.storedAt]
    rw [list_get?_set_ne b i j _ hij]

theorem cellInBounds_false_iff (sb : ScreenBuffer) (rc : Nat × Nat) :
    cellInBounds sb rc = false ↔ (sb.height ≤ rc.1 ∨ sb.width ≤ rc.2) := by
  simp only [cellInBounds, Bool.and_eq_false_iff, decide_eq_false_iff_not]
  omega

theorem cellInBounds_true_iff (sb : ScreenBuffer) (rc : Nat × Nat) :
    cellInBounds sb rc = true ↔ (rc.1 < sb.height ∧ rc.2 < sb.width) := by
  simp only [cellInBounds, Bool.and_eq_true, decide_eq_true_eq]

theorem list_get?_lt {α : Type} :
    ∀ (l : List α) (i : Nat), i < l.length → ∃ a, l.get? i = some a := by
  intro l
  induction l with
  | nil => intro i h; simp at h
  | cons b l' ih =>
    intro i h
    cases i with
    | zero => exact ⟨b, rfl⟩
    | succ j => exact ih j (by simpa using h)

theorem list_get?_ge {α : Type} :
    ∀ (l : List α) (i : Nat), l.length ≤ i → l.get? i = none := by
  intro l
  induction l with
  | nil => intro i _; rfl
  | cons b l' ih =>
    intro i h
    cases i with
    | zero => simp at h
    | succ j => exact ih j (by simpa using h)

theorem wrReadBit_eq_some (bitmap : List Nat) (x y w : Nat) (rc : Nat × Nat)
    (h : wrIdx x y w rc / 8 < bitmap.length) :
    wrReadBit bitmap x y w rc.1 rc.2 = some (wrBitVal bitmap x y w rc) := by
  obtain ⟨byte, hb⟩ := list_get?_lt bitmap _ h
  unfold wrReadBit wrBitVal
  rw [hb]
  rfl

theorem wrReadBit_eq_none (bitmap : List Nat) (x y w : Nat) (rc : Nat × Nat)
    (h : bitmap.length ≤ wrIdx x y w rc / 8) :
    wrReadBit bitmap x y w rc.1 rc.2 = none := by
  unfold wrReadBit
  rw [list_get?_ge _ _ h]
  rfl

theorem set_cell_ok_of_inBounds (sb : ScreenBuffer) (rc : Nat × Nat) (v : Bool)
    (h : cellInBounds sb rc = true) :
    sb.set_cell rc.1 rc.2 v = .ok (sb.setIdx (rc.1 * sb.width + rc.2) v) := by
  rw [cellInBounds_true_iff] at h
  unfold ScreenBuffer.set_cell
  rw [if_neg (by omega : ¬(sb.height ≤ rc.1 ∨ sb.width ≤ rc.2))]

theorem set_cell_err_of_notInBounds (sb : ScreenBuffer) (rc : Nat × Nat) (v : Bool)
    (h : cellInBounds sb rc = false) :
    sb.set_cell rc.1 rc.2 v = .error .invalidInput := by
  rw [cellInBounds_false_iff] at h
  unfold ScreenBuffer.set_cell
  rw [if_pos h]

-- The success case of the cell walk.
theorem wrGo_ok (bitmap : List Nat) (x y w : Nat) :
    ∀ (cells : List (Nat × Nat)) (sb : ScreenBuffer),
      (∀ rc ∈ cells, wrIdx x y w rc / 8 < bitmap.length) →
      (∀ rc ∈ cells, cellInBounds sb rc = true) →
      wrGo bitmap x y w sb cells = .ok (wrApply bitmap x y w sb cells) := by
  intro cells
  induction cells with
  | nil => intro sb _ _; rfl
  | cons rc rest ih =>
    intro sb hbit hin
    have h1 := hbit rc (List.mem_cons_self rc rest)
    have h2 := hin rc (List.mem_cons_self rc rest)
    simp only [wrGo, wrReadBit_eq_some bitmap x y w rc h1,
      set_cell_ok_of_inBounds sb rc _ h2]
    rw [ih (sb.setIdx (rc.1 * sb.width + rc.2) (wrBitVal bitmap x y w rc))
      (fun rc' h' => hbit rc' (List.mem_cons_of_mem rc h'))
      (fun rc' h' => by
        rw [cellInBounds_setIdx]
        exact hin rc' (List.mem_cons_of_mem rc h'))]
    rfl

-- The early-error case of the cell walk.
theorem wrGo_err (bitmap : List Nat) (x y w : Nat) :
    ∀ (cells : List (Nat × Nat)) (sb : ScreenBuffer),
      (∀ rc ∈ cells, wrIdx x y w rc / 8 < bitmap.length) →
      (∃ rc ∈ cells, cellInBounds sb rc = false) →
      wrGo bitmap x y w sb cells
        = .errored .invalidInput
            (wrApply bitmap x y w sb (cells.takeWhile (cellInBounds sb))) := by
  intro cells
  induction cells with
  | nil => intro sb _ hex; simp at hex
  | cons rc rest ih =>
    intro sb hbit hex
    have h1 := hbit rc (List.mem_cons_self rc rest)
    by_cases h2 : cellInBounds sb rc = true
    · obtain ⟨rc0, hrc0, hf⟩ := hex
      have hrc0' : rc0 ∈ rest := by
        rcases List.mem_cons.mp hrc0 with h | h
        · exfalso; rw [h] at hf; rw [h2] at hf; cases hf
        · exact h
      simp only [wrGo, wrReadBit_eq_some bitmap x y w rc h1,
        set_cell_ok_of_inBounds sb rc _ h2]
      rw [ih (sb.setIdx (rc.1 * sb.width + rc.2) (wrBitVal bitmap x y w rc))
        (fun rc' h' => hbit rc' (List.mem_cons_of_mem rc h'))
        ⟨rc0, hrc0', by rw [cellInBounds_setIdx]; exact hf⟩]
      rw [List.takeWhile_cons_of_pos h2, cellInBounds_setIdx]
      rfl
    · have h2' : cellInBounds sb rc = false := by
        cases hcb : cellInBounds sb rc
        · rfl
        · exact absurd hcb h2
      simp only [wrGo, wrReadBit_eq_some bitmap x y w rc h1,
        set_cell_err_of_notInBounds sb rc _ h2']
      rw [List.takeWhile_cons_of_neg (by rw [h2']; exact Bool.false_ne_true)]
      rfl

-- The panic case of the cell walk.
theorem wrGo_panic (bitmap : List Nat) (x y w : Nat) :
    ∀ (cells : List (Nat × Nat)) (sb : ScreenBuffer),
      (∀ rc ∈ cells, cellInBounds sb rc = true) →
      (∃ rc ∈ cells, bitmap.length ≤ wrIdx x y w rc / 8) →
      wrGo bitmap x y w sb cells = .panicked := by
  intro cells
  induction cells with
  | nil => intro sb _ hex; simp at hex
  | cons rc rest ih =>
    intro sb hin hex
    by_cases h1 : wrIdx x y w rc / 8 < bitmap.length
    · have h2 := hin rc (List.mem_cons_self rc rest)
      obtain ⟨rc0, hrc0, hf⟩ := hex
      have hrc0' : rc0 ∈ rest := by
        rcases List.mem_cons.mp hrc0 with h | h
        · exfalso; rw [h] at hf; omega
        · exact h
      simp only [wrGo, wrReadBit_eq_some bitmap x y w rc h1,
        set_cell_ok_of_inBounds sb rc _ h2]
      exact ih (sb.setIdx (rc.1 * sb.width + rc.2) (wrBitVal bitmap x y w rc))
        (fun rc' h' => by
          rw [cellInBounds_setIdx]
          exact hin rc' (List.mem_cons_of_mem rc h'))
        ⟨rc0, hrc0', hf⟩
    · simp only [wrGo, wrReadBit_eq_none bitmap x y w rc (by omega)]

-- No panic when every bitmap access of the walk is in range.
theorem wrGo_not_panicked (bitmap : List Nat) (x y w : Nat)
    (cells : List (Nat × Nat)) (sb : ScreenBuffer)
    (hbit : ∀ rc ∈ cells, wrIdx x y w rc / 8 < bitmap.length) :
    wrGo bitmap x y w sb cells ≠ .panicked := by
  by_cases hall : ∀ rc ∈ cells, cellInBounds sb rc = true
  · rw [wrGo_ok bitmap x y w cells sb hbit hall]
    intro h
    cases h
  · push_neg at hall
    obtain ⟨rc0, hrc0, hf⟩ := hall
    have hf' : cellInBounds sb rc0 = false := by
      cases hcb : cellInBounds sb rc0
      · rfl
      · exact absurd hcb hf
    rw [wrGo_err bitmap x y w cells sb hbit ⟨rc0, hrc0, hf'⟩]
    intro h
    cases h

theorem mem_rectCells (x y w h : Nat) (rc : Nat × Nat) :
    rc ∈ rectCells x y w h
      ↔ (y ≤ rc.1 ∧ rc.1 < y + h) ∧ (x ≤ rc.2 ∧ rc.2 < x + w) := by
  rcases rc with ⟨r, c⟩
  simp only [rectCells, List.mem_flatMap, List.mem_map, List.mem_range'_1]
  constructor
  · rintro ⟨row, hrow, col, hcol, heq⟩
    cases heq
    exact ⟨hrow, hcol⟩
  · rintro ⟨⟨h1, h2⟩, h3, h4⟩
    exact ⟨r, ⟨h1, h2⟩, c, ⟨h3, h4⟩, rfl⟩

theorem wrIdx_lt_of_mem (x y w h : Nat) (rc : Nat × Nat)
    (hm : rc ∈ rectCells x y w h) : wrIdx x y w rc < w * h := by
  rw [mem_rectCells] at hm
  obtain ⟨⟨h1, h2⟩, h3, h4⟩ := hm
  unfold wrIdx
  calc (rc.2 - x) + w * (rc.1 - y) < w + w * (rc.1 - y) := by omega
    _ = w * ((rc.1 - y) + 1) := by ring
    _ ≤ w * h := Nat.mul_le_mul_left w (by omega)

theorem rectCells_nodup (x y w h : Nat) : (rectCells x y w h).Nodup := by
  unfold rectCells
  rw [List.nodup_flatMap]
  constructor
  · intro row _
    exact (List.nodup_range' x w).map (fun c1 c2 hc => by simpa using hc)
  · have hr : (List.range' y h).Nodup := List.nodup_range' y h
    refine List.Pairwise.imp ?_ hr
    intro a b hab
    simp only [Function.onFun]
    intro z hz1 hz2
    simp only [List.mem_map] at hz1 hz2
    obtain ⟨c1, _, he1⟩ := hz1
    obtain ⟨c2, _, he2⟩ := hz2
    apply hab
    have ha : a = z.1 := by rw [← he1]
    have hb : b = z.1 := by rw [← he2]
    rw [ha, hb]

theorem wrApply_cons (bitmap : List Nat) (x y w : Nat) (sb : ScreenBuffer)
    (rc : Nat × Nat) (rest : List (Nat × Nat)) :
    wrApply bitmap x y w sb (rc :: rest)
      = wrApply bitmap x y w
          (sb.setIdx (rc.1 * sb.width + rc.2) (wrBitVal bitmap x y w rc)) rest := rfl

theorem wrApply_storedAt_ne (bitmap : List Nat) (x y w : Nat) :
    ∀ (cells : List (Nat × Nat)) (sb : ScreenBuffer) (i : Nat),
      (∀ rc ∈ cells, rc.1 * sb.width + rc.2 ≠ i) →
      (wrApply bitmap x y w sb cells).storedAt i = sb.storedAt i := by
  intro cells
  induction cells with
  | nil => intro sb i _; rfl
  | cons rc rest ih =>
    intro sb i hne
    rw [wrApply_cons]
    rw [ih _ i (fun rc' h' => by
      rw [setIdx_width]
      exact hne rc' (List.mem_cons_of_mem rc h'))]
    exact setIdx_storedAt_ne sb _ i _ (hne rc (List.mem_cons_self rc rest))

theorem flatIdx_lt_bufLen (sb : ScreenBuffer) (rc : Nat × Nat)
    (hin : cellInBounds sb rc = true) (hwf : sb.wf) :
    rc.1 * sb.width + rc.2 < sb.bufLen := by
  obtain ⟨h1, h2⟩ := (cellInBounds_true_iff sb rc).mp hin
  rw [show sb.bufLen = sb.width * sb.height from hwf]
  calc rc.1 * sb.width + rc.2 < (rc.1 + 1) * sb.width := by
        rw [Nat.succ_mul]; omega
    _ ≤ sb.height * sb.width := Nat.mul_le_mul_right _ (by omega)
    _ = sb.width * sb.height := Nat.mul_comm _ _

theorem flatIdx_inj (W : Nat) (rc rc' : Nat × Nat) (h2 : rc.2 < W)
    (h2' : rc'.2 < W) (heq : rc.1 * W + rc.2 = rc'.1 * W + rc'.2) : rc = rc' := by
  have e1 : (rc.1 * W + rc.2) % W = rc.2 := by
    rw [Nat.add_comm, Nat.add_mul_mod_self_right]
    exact Nat.mod_eq_of_lt h2
  have e2 : (rc'.1 * W + rc'.2) % W = rc'.2 := by
    rw [Nat.add_comm, Nat.add_mul_mod_self_right]
    exact Nat.mod_eq_of_lt h2'
  have hc : rc.2 = rc'.2 := by rw [← e1, ← e2, heq]
  have hW : 0 < W := by omega
  have hr : rc.1 = rc'.1 :=
    Nat.eq_of_mul_eq_mul_right hW (by omega)
  rcases rc with ⟨r, c⟩
  rcases rc' with ⟨r', c'⟩
  simp only at hr hc
  rw [hr, hc]

-- Each cell written before the first failure holds its intended value.
theorem wrApply_stored (bitmap : List Nat) (x y w : Nat) :
    ∀ (cells : List (Nat × Nat)) (sb : ScreenBuffer),
      sb.wf →
      (∀ rc ∈ cells, cellInBounds sb rc = true) →
      (cells.map (fun rc => rc.1 * sb.width + rc.2)).Nodup →
      ∀ rc ∈ cells,
        (wrApply bitmap x y w sb cells).storedAt (rc.1 * sb.width + rc.2)
          = some (paintValue sb (wrBitVal bitmap x y w rc)) := by
  intro cells
  induction cells with
  | nil => intro sb _ _ _ rc hrc; cases hrc
  | cons rc0 rest ih =>
    intro sb hwf hin hnd rc hrc
    have hin0 := hin rc0 (List.mem_cons_self rc0 rest)
    have hnd2 := hnd
    rw [List.map_cons] at hnd2
    have hnd' := List.nodup_cons.mp hnd2
    have hwidth : (sb.setIdx (rc0.1 * sb.width + rc0.2)
        (wrBitVal bitmap x y w rc0)).width = sb.width := setIdx_width sb _ _
    rcases List.mem_cons.mp hrc with heq | hmem
    · subst heq
      rw [wrApply_cons]
      rw [wrApply_storedAt_ne bitmap x y w rest _ _ (fun rc' h' hidx => by
        rw [hwidth] at hidx
        exact hnd'.1 (List.mem_map.mpr ⟨rc', h', hidx⟩))]
      exact setIdx_storedAt_self sb _ _ (flatIdx_lt_bufLen sb rc hin0 hwf)
    · rw [wrApply_cons]
      have hres := ih (sb.setIdx (rc0.1 * sb.width + rc0.2)
          (wrBitVal bitmap x y w rc0))
        (setIdx_wf sb _ _ hwf)
        (fun rc' h' => by
          rw [cellInBounds_setIdx]
          exact hin rc' (List.mem_cons_of_mem rc0 h'))
        (by
          have hmapeq : (rest.map (fun rc =>
              rc.1 * (sb.setIdx (rc0.1 * sb.width + rc0.2)
                (wrBitVal bitmap x y w rc0)).width + rc.2))
              = rest.map (fun rc => rc.1 * sb.width + rc.2) := by
            simp only [hwidth]
          rw [hmapeq]
          exact hnd'.2)
        rc hmem
      rw [hwidth] at hres
      rw [hres, paintValue_setIdx]

-- The bit test of `write_region` is the LSB-first bit of the bitmap byte.
theorem and_shift_ne_zero_eq_testBit (n k : Nat) :
    (n &&& 1 <<< k != 0) = n.testBit k := by
  rw [Nat.shiftLeft_eq, one_mul, Nat.and_two_pow]
  cases h : n.testBit k
  · simp
  · have h2 : (2 : Nat) ^ k ≠ 0 := Nat.pos_iff_ne_zero.mp (Nat.two_pow_pos k)
    simp [h2]

/-- C9: `write_region` reads bit index `(col - x) + width * (row - y)` of
the packed bitmap for each visited cell, least-significant bit first within
each byte; when `8 * buffer_data.len() >= width * height` every bitmap
access is in bounds and the call cannot panic, while for any shorter bitmap
with an in-bounds rectangle the bitmap access panics instead of returning an
error value. -/
theorem write_region_bitmap_claim :
    ∀ (sb : ScreenBuffer) (x y w h : Nat) (bitmap : List Nat),
      (∀ row col : Nat,
        wrReadBit bitmap x y w row col
          = Option.map (fun byte => byte.testBit (wrIdx x y w (row, col) % 8))
              (bitmap.get? (wrIdx x y w (row, col) / 8)))
      ∧ (sb.wf → w * h ≤ bitmap.length * 8 →
          write_region sb x y w h bitmap ≠ .panicked)
      ∧ (sb.wf → bitmap.length * 8 < w * h → x + w ≤ sb.width →
          y + h ≤ sb.height → write_region sb x y w h bitmap = .panicked) := by
  intro sb x y w h bitmap
  refine ⟨?_, ?_, ?_⟩
  · intro row col
    rcases hb : bitmap.get? (wrIdx x y w (row, col) / 8) with _ | byte
    · unfold wrReadBit
      rw [hb]
      rfl
    · unfold wrReadBit
      rw [hb]
      simp [and_shift_ne_zero_eq_testBit]
  · intro _ hle
    unfold write_region
    refine wrGo_not_panicked bitmap x y w _ sb ?_
    intro rc hrc
    have hlt : wrIdx x y w rc < bitmap.length * 8 :=
      lt_of_lt_of_le (wrIdx_lt_of_mem x y w h rc hrc) hle
    rw [Nat.div_lt_iff_lt_mul (by omega : 0 < 8)]
    exact hlt
  · intro _ hlt hxw hyh
    unfold write_region
    have hwh : 0 < w * h := by omega
    have hw : 0 < w := by
      rcases Nat.eq_zero_or_pos w with h0 | h0
      · rw [h0, Nat.zero_mul] at hwh; omega
      · exact h0
    have hh : 0 < h := by
      rcases Nat.eq_zero_or_pos h with h0 | h0
      · rw [h0, Nat.mul_zero] at hwh; omega
      · exact h0
    refine wrGo_panic bitmap x y w _ sb ?_ ?_
    · intro rc hrc
      rw [mem_rectCells] at hrc
      rw [cellInBounds_true_iff]
      omega
    · refine ⟨(y + (h - 1), x + (w - 1)), ?_, ?_⟩
      · rw [mem_rectCells]
        constructor
        · constructor
          · omega
          · simp only
            omega
        · constructor
          · omega
          · simp only
            omega
      · have hidx : wrIdx x y w (y + (h - 1), x + (w - 1))
            = (w - 1) + w * (h - 1) := by
          unfold wrIdx
          simp only [Nat.add_sub_cancel_left]
        rw [hidx, Nat.le_div_iff_mul_le (by omega : 0 < 8)]
        have hmul : w * h = w * (h - 1) + w := by
          conv_lhs => rw [show h = (h - 1) + 1 by omega]
          rw [Nat.mul_add, Nat.mul_one]
        omega

/-- Witness for C9 on a 3x3 monocolor buffer: a 2-byte bitmap (16 bits for
9 cells) cannot panic, a 1-byte bitmap (8 bits for 9 cells) panics. -/
theorem write_region_bitmap_witness :
    write_region (ScreenBuffer.new 3 3 none) 0 0 3 3 [255, 255] ≠ .panicked
    ∧ write_region (ScreenBuffer.new 3 3 none) 0 0 3 3 [255] = .panicked :=
  ⟨(write_region_bitmap_claim (ScreenBuffer.new 3 3 none) 0 0 3 3
      [255, 255]).2.1 (by decide) (by decide),
   (write_region_bitmap_claim (ScreenBuffer.new 3 3 none) 0 0 3 3 [255]).2.2
      (by decide) (by decide) (by decide) (by decide)⟩

/-- C10: `write_region` is not atomic on failure: it visits the rectangle's
cells in row-major order, and when some cell is out of bounds it returns the
out-of-bounds error while the buffer keeps the writes applied to every
in-bounds cell visited before the first failing cell (each such cell stores
its newly written value; nothing is rolled back). -/
theorem write_region_not_atomic_claim :
    ∀ (sb : ScreenBuffer) (x y w h : Nat) (bitmap : List Nat),
      sb.wf → w * h ≤ bitmap.length * 8 →
      (∃ rc ∈ rectCells x y w h, cellInBounds sb rc = false) →
      write_region sb x y w h bitmap
        = .errored .invalidInput
            (wrApply bitmap x y w sb
              ((rectCells x y w h).takeWhile (cellInBounds sb)))
      ∧ ∀ rc ∈ (rectCells x y w h).takeWhile (cellInBounds sb),
          (wrApply bitmap x y w sb
              ((rectCells x y w h).takeWhile (cellInBounds sb))).storedAt
            (rc.1 * sb.width + rc.2)
          = some (intendedCell sb bitmap x y w rc) := by
  intro sb x y w h bitmap hwf hle hex
  have hbit : ∀ rc ∈ rectCells x y w h, wrIdx x y w rc / 8 < bitmap.length := by
    intro rc hrc
    have hlt : wrIdx x y w rc < bitmap.length * 8 :=
      lt_of_lt_of_le (wrIdx_lt_of_mem x y w h rc hrc) hle
    rw [Nat.div_lt_iff_lt_mul (by omega : 0 < 8)]
    exact hlt
  constructor
  · unfold write_region
    exact wrGo_err bitmap x y w _ sb hbit hex
  · intro rc hrc
    have hsub : ((rectCells x y w h).takeWhile (cellInBounds sb)).Sublist
        (rectCells x y w h) := List.takeWhile_sublist _
    have hnodup : ((rectCells x y w h).takeWhile (cellInBounds sb)).Nodup :=
      (rectCells_nodup x y w h).sublist hsub
    have hinb : ∀ rc' ∈ (rectCells x y w h).takeWhile (cellInBounds sb),
        cellInBounds sb rc' = true := fun rc' h' => List.mem_takeWhile_imp h'
    have hmapnd : (((rectCells x y w h).takeWhile (cellInBounds sb)).map
        (fun rc => rc.1 * sb.width + rc.2)).Nodup := by
      refine hnodup.map_on ?_
      intro a ha b hb heq
      have ha2 := (cellInBounds_true_iff sb a).mp (hinb a ha)
      have hb2 := (cellInBounds_true_iff sb b).mp (hinb b hb)
      exact flatIdx_inj sb.width a b ha2.2 hb2.2 heq
    exact wrApply_stored bitmap x y w _ sb hwf hinb hmapnd rc hrc

/-- Witness for C10: writing a 2x3 rectangle into a 2x2 buffer fails at the
first out-of-bounds cell, keeping the four in-bounds writes. -/
theorem write_region_not_atomic_witness :
    write_region (ScreenBuffer.new 2 2 none) 0 0 2 3 [255]
      = .errored .invalidInput
          (wrApply [255] 0 0 2 (ScreenBuffer.new 2 2 none)
            ((rectCells 0 0 2 3).takeWhile (cellInBounds (ScreenBuffer.new 2 2 none))))
    ∧ ∀ rc ∈ (rectCells 0 0 2 3).takeWhile
          (cellInBounds (ScreenBuffer.new 2 2 none)),
        (wrApply [255] 0 0 2 (ScreenBuffer.new 2 2 none)
            ((rectCells 0 0 2 3).takeWhile
              (cellInBounds (ScreenBuffer.new 2 2 none)))).storedAt
          (rc.1 * (ScreenBuffer.new 2 2 none).width + rc.2)
        = some (intendedCell (ScreenBuffer.new 2 2 none) [255] 0 0 2 rc) :=
  write_region_not_atomic_claim (ScreenBuffer.new 2 2 none) 0 0 2 3 [255]
    (by decide) (by decide) (by decide)

-- Two back-to-back frames through the read loop, tracked read by read.
-- `cum` is the number of stream bytes already consumed by earlier reads.
theorem c1_run_aux (d : List Nat → Option SerialMessage)
    (s1 s2 p1 p2 : List Nat) (m1 m2 : SerialMessage)
    (hz1 : 0 ∉ s1) (hz2 : 0 ∉ s2)
    (hu1 : cobsUnstuff s1 = some p1) (hu2 : cobsUnstuff s2 = some p2)
    (hd1 : d p1 = some m1) (hd2 : d p2 = some m2) :
    ∀ (cs : List (List Nat)) (cum : Nat),
      cum ≤ ((s1 ++ [0]) ++ (s2 ++ [0])).length →
      cs.flatten = ((s1 ++ [0]) ++ (s2 ++ [0])).drop cum →
      (cum < (s1 ++ [0]).length →
        ∃ k, (s1 ++ [0]).length ≤ cum + ((cs.take k).flatten).length
          ∧ cum + ((cs.take k).flatten).length
              < ((s1 ++ [0]) ++ (s2 ++ [0])).length) →
      readLoopRun d (c1ExpState s1 s2 m1 m2 cum) cs = some ⟨[], [m1, m2]⟩ := by
  intro cs
  induction cs with
  | nil =>
    intro cum hcum hjoin hsep
    have hdropnil : ((s1 ++ [0]) ++ (s2 ++ [0])).drop cum = [] := by
      rw [← hjoin]
      rfl
    have hge : ((s1 ++ [0]) ++ (s2 ++ [0])).length ≤ cum :=
      List.drop_eq_nil_iff.mp hdropnil
    have h1 : ¬cum < (s1 ++ [0]).length := by
      simp only [List.length_append, List.length_cons, List.length_nil] at hge ⊢
      omega
    have h2 : ¬cum < ((s1 ++ [0]) ++ (s2 ++ [0])).length := by omega
    unfold c1ExpState
    rw [if_neg h1, if_neg h2]
    rfl
  | cons c cs' ih =>
    intro cum hcum hjoin hsep
    set F1 := s1 ++ [0] with hF1def
    set F2 := s2 ++ [0] with hF2def
    set S := F1 ++ F2 with hSdef
    have hF1len : F1.length = s1.length + 1 := by
      rw [hF1def]; simp
    have hF2len : F2.length = s2.length + 1 := by
      rw [hF2def]; simp
    have hSlen : S.length = F1.length + F2.length := by
      rw [hSdef]; simp
    have hcjoin : c ++ cs'.flatten = S.drop cum := by
      simpa using hjoin
    have hlen : c.length + cs'.flatten.length = S.length - cum := by
      have hl := congrArg List.length hcjoin
      simpa [List.length_drop] using hl
    have hclen : cum + c.length ≤ S.length := by omega
    have hc : c = (S.drop cum).take c.length := by
      rw [← hcjoin]
      exact (List.take_left c cs'.flatten).symm
    have hjoin' : cs'.flatten = S.drop (cum + c.length) := by
      have h2 : (c ++ cs'.flatten).drop c.length = cs'.flatten :=
        List.drop_left c cs'.flatten
      rw [hcjoin] at h2
      rw [← h2]
      exact List.drop_drop c.length cum S
    have hbufstep : S.take cum ++ c = S.take (cum + c.length) := by
      rw [List.take_add]
      congr 1
    by_cases h1 : cum < F1.length
    · by_cases h2 : cum + c.length < F1.length
      · -- still inside frame 1: accumulate
        have hzf : 0 ∉ S.take (cum + c.length) := by
          intro hmem
          have hsub : S.take (cum + c.length) = s1.take (cum + c.length) := by
            rw [hSdef, hF1def, List.append_assoc]
            exact List.take_append_of_le_length (by omega)
          rw [hsub] at hmem
          exact hz1 (List.take_subset _ _ hmem)
        have hstate : c1ExpState s1 s2 m1 m2 cum = ⟨S.take cum, []⟩ := by
          unfold c1ExpState
          rw [if_pos h1]
        have hstep : readLoopStep d ⟨S.take cum, []⟩ c
            = some ⟨S.take cum ++ c, []⟩ :=
          readLoopStep_accum d ⟨S.take cum, []⟩ c
            (by
              show 0 ∉ S.take cum ++ c
              rw [hbufstep]
              exact hzf)
        rw [hstate]
        simp only [readLoopRun, hstep]
        have hstate' : (⟨S.take cum ++ c, []⟩ : ReadLoopState)
            = c1ExpState s1 s2 m1 m2 (cum + c.length) := by
          unfold c1ExpState
          rw [if_pos h2, hbufstep]
        rw [hstate']
        refine ih (cum + c.length) hclen hjoin' ?_
        intro _
        obtain ⟨k, hk1, hk2⟩ := hsep h1
        cases k with
        | zero =>
          exfalso
          simp only [List.take_zero, List.flatten_nil, List.length_nil,
            Nat.add_zero] at hk1
          omega
        | succ j =>
          simp only [List.take_succ_cons, List.flatten_cons,
            List.length_append] at hk1 hk2
          exact ⟨j, by omega, by omega⟩
      · by_cases h3 : cum + c.length < S.length
        · -- frame 1 completes in this read, frame 2 does not
          set t := cum + c.length - F1.length with htdef
          have htake0 : (F1 ++ F2).take (F1.length + t) = F1 ++ F2.take t :=
            List.take_append t
          have hbc : S.take cum ++ c = s1 ++ 0 :: F2.take t := by
            rw [hbufstep, show cum + c.length = F1.length + t by omega, hSdef,
              htake0, hF1def, List.append_assoc]
            rfl
          have hstate : c1ExpState s1 s2 m1 m2 cum = ⟨S.take cum, []⟩ := by
            unfold c1ExpState
            rw [if_pos h1]
          have hstep : readLoopStep d ⟨S.take cum, []⟩ c
              = some ⟨F2.take t, [] ++ (d p1).toList⟩ :=
            readLoopStep_frame d ⟨S.take cum, []⟩ c s1 (F2.take t) p1 hbc hz1 hu1
          rw [hd1] at hstep
          simp only [Option.toList_some, List.nil_append] at hstep
          rw [hstate]
          simp only [readLoopRun, hstep]
          have hstate' : (⟨F2.take t, [m1]⟩ : ReadLoopState)
              = c1ExpState s1 s2 m1 m2 (cum + c.length) := by
            unfold c1ExpState
            rw [if_neg h2, if_pos h3]
          rw [hstate']
          refine ih (cum + c.length) hclen hjoin' ?_
          intro hlt
          exact absurd hlt h2
        · -- impossible: both frames would complete in this read
          exfalso
          obtain ⟨k, hk1, hk2⟩ := hsep h1
          cases k with
          | zero =>
            simp only [List.take_zero, List.flatten_nil, List.length_nil,
              Nat.add_zero] at hk1
            omega
          | succ j =>
            simp only [List.take_succ_cons, List.flatten_cons,
              List.length_append] at hk2
            omega
    · by_cases h3 : cum < S.length
      · set t := cum - F1.length with htdef
        have hcumt : cum = F1.length + t := by omega
        have hdropt : S.drop cum = F2.drop t := by
          rw [hcumt, hSdef]
          exact List.drop_append t
        have hstate : c1ExpState s1 s2 m1 m2 cum = ⟨F2.take t, [m1]⟩ := by
          unfold c1ExpState
          rw [if_neg h1, if_pos h3]
        have hbc2 : F2.take t ++ c = F2.take (t + c.length) := by
          rw [List.take_add]
          congr 1
          rw [← hdropt]
          exact hc
        by_cases h4 : cum + c.length < S.length
        · -- accumulate within frame 2
          have hzf : 0 ∉ F2.take (t + c.length) := by
            intro hmem
            have hsub : F2.take (t + c.length) = s2.take (t + c.length) := by
              rw [hF2def]
              exact List.take_append_of_le_length (by omega)
            rw [hsub] at hmem
            exact hz2 (List.take_subset _ _ hmem)
          have hstep : readLoopStep d ⟨F2.take t, [m1]⟩ c
              = some ⟨F2.take t ++ c, [m1]⟩ :=
            readLoopStep_accum d ⟨F2.take t, [m1]⟩ c
              (by
                show 0 ∉ F2.take t ++ c
                rw [hbc2]
                exact hzf)
          rw [hstate]
          simp only [readLoopRun, hstep]
          have hstate' : (⟨F2.take t ++ c, [m1]⟩ : ReadLoopState)
              = c1ExpState s1 s2 m1 m2 (cum + c.length) := by
            unfold c1ExpState
            rw [if_neg (by omega : ¬cum + c.length < F1.length), if_pos h4,
              show cum + c.length - F1.length = t + c.length by omega, hbc2]
          rw [hstate']
          refine ih (cum + c.length) hclen hjoin' ?_
          intro hlt
          exact absurd hlt (by omega)
        · -- frame 2 completes in this read
          have hcum' : cum + c.length = S.length := by omega
          have htfull : t + c.length = F2.length := by omega
          have hbc3 : F2.take t ++ c = s2 ++ 0 :: [] := by
            rw [hbc2, htfull, List.take_length, hF2def]
          have hstep : readLoopStep d ⟨F2.take t, [m1]⟩ c
              = some ⟨[], [m1] ++ (d p2).toList⟩ :=
            readLoopStep_frame d ⟨F2.take t, [m1]⟩ c s2 [] p2 hbc3 hz2 hu2
          rw [hd2] at hstep
          simp only [Option.toList_some] at hstep
          rw [hstate]
          simp only [readLoopRun, hstep]
          have hstate' : (⟨[], [m1] ++ [m2]⟩ : ReadLoopState)
              = c1ExpState s1 s2 m1 m2 (cum + c.length) := by
            unfold c1ExpState
            rw [if_neg (by omega : ¬cum + c.length < F1.length),
              if_neg (by omega : ¬cum + c.length < S.length)]
            rfl
          rw [hstate']
          refine ih (cum + c.length) hclen hjoin' ?_
          intro hlt
          exact absurd hlt (by omega)
      · -- the whole stream has already been consumed: this read is empty
        have hcum2 : cum = S.length := by omega
        have hnil : c = [] ∧ cs'.flatten = [] := by
          refine List.append_eq_nil.mp ?_
          rw [hcjoin, hcum2, List.drop_length]
        obtain ⟨hcnil, hfnil⟩ := hnil
        have hstate : c1ExpState s1 s2 m1 m2 cum = ⟨[], [m1, m2]⟩ := by
          unfold c1ExpState
          rw [if_neg h1, if_neg (by omega : ¬cum < S.length)]
        have hstep : readLoopStep d ⟨[], [m1, m2]⟩ c
            = some ⟨[] ++ c, [m1, m2]⟩ :=
          readLoopStep_accum d ⟨[], [m1, m2]⟩ c
            (by
              show 0 ∉ [] ++ c
              rw [hcnil]
              simp)
        rw [hstate]
        simp only [readLoopRun, hstep]
        have hstate' : (⟨[] ++ c, [m1, m2]⟩ : ReadLoopState)
            = c1ExpState s1 s2 m1 m2 (cum + c.length) := by
          unfold c1ExpState
          rw [if_neg (by omega : ¬cum + c.length < F1.length),
            if_neg (by omega : ¬cum + c.length < S.length), hcnil]
          rfl
        rw [hstate']
        refine ih (cum + c.length) hclen hjoin' ?_
        intro hlt
        exact absurd hlt (by omega)

/-- C1 (amended): for a byte stream of two back-to-back well-formed frames
delivered across arbitrarily many partial reads, the read loop decodes and
publishes both messages, in order, exactly once each, provided the two
frames are not completed by the same read — that is, some read prefix
delivers all of frame 1 but not yet all of frame 2. (Without that proviso
the claim fails: decode is attempted once per read, so a read completing
both frames publishes only the first message and leaves the second
buffered; see the counterexample.) -/
theorem framing_two_frames_amended :
    ∀ (d : List Nat → Option SerialMessage) (p1 p2 : List Nat)
      (m1 m2 : SerialMessage) (cs : List (List Nat)),
      d p1 = some m1 → d p2 = some m2 →
      cs.flatten = (cobsEncodeVec p1 ++ [0]) ++ (cobsEncodeVec p2 ++ [0]) →
      (∃ k, (cobsEncodeVec p1 ++ [0]).length ≤ ((cs.take k).flatten).length
        ∧ ((cs.take k).flatten).length
            < ((cobsEncodeVec p1 ++ [0]) ++ (cobsEncodeVec p2 ++ [0])).length) →
      readLoopRun d ⟨[], []⟩ cs = some ⟨[], [m1, m2]⟩ := by
  intro d p1 p2 m1 m2 cs hd1 hd2 hflat hsep
  have h0 : (0 : Nat) < (cobsEncodeVec p1 ++ [0]).length := by simp
  have hrun := c1_run_aux d (cobsEncodeVec p1) (cobsEncodeVec p2) p1 p2 m1 m2
    (cobsEncodeVec_not_mem_zero p1) (cobsEncodeVec_not_mem_zero p2)
    (cobsUnstuff_cobsEncodeVec p1) (cobsUnstuff_cobsEncodeVec p2) hd1 hd2
    cs 0 (Nat.zero_le _) (by simpa using hflat)
    (fun _ => by simpa using hsep)
  rwa [show c1ExpState (cobsEncodeVec p1) (cobsEncodeVec p2) m1 m2 0
      = ⟨[], []⟩ by
    unfold c1ExpState
    rw [if_pos h0]
    rfl] at hrun

/-- Witness for the amended C1: the two frames `[2,1,0]` (payload `[1]`,
a `Ping`) and `[2,2,0]` (payload `[2]`, a `SetLedState(true)`) delivered in
two reads split at the frame boundary; both messages come out in order. -/
theorem framing_two_frames_amended_witness :
    c1Decoder [1] = some SerialMessage.ping
    ∧ c1Decoder [2] = some (SerialMessage.setLedState true)
    ∧ ([[2, 1, 0], [2, 2, 0]] : List (List Nat)).flatten
        = (cobsEncodeVec [1] ++ [0]) ++ (cobsEncodeVec [2] ++ [0])
    ∧ readLoopRun c1Decoder ⟨[], []⟩ [[2, 1, 0], [2, 2, 0]]
        = some ⟨[], [SerialMessage.ping, SerialMessage.setLedState true]⟩ :=
  ⟨rfl, rfl, by decide,
   framing_two_frames_amended c1Decoder [1] [2] SerialMessage.ping
     (SerialMessage.setLedState true) [[2, 1, 0], [2, 2, 0]] rfl rfl
     (by decide) ⟨1, by decide, by decide⟩⟩

/-- C1 counterexample: the same two back-to-back well-formed frames
delivered in a single read (a legal instance of "arbitrarily many partial
reads, split at any byte boundary"). The loop attempts one decode per read,
consumes only the first frame, and publishes only `Ping`; the second frame
stays in the buffer and its message is never published although the whole
stream has been delivered, so the claim as stated is false. -/
theorem framing_two_frames_counterexample :
    ([[2, 1, 0, 2, 2, 0]] : List (List Nat)).flatten
      = (cobsEncodeVec [1] ++ [0]) ++ (cobsEncodeVec [2] ++ [0])
    ∧ c1Decoder [1] = some SerialMessage.ping
    ∧ c1Decoder [2] = some (SerialMessage.setLedState true)
    ∧ readLoopRun c1Decoder ⟨[], []⟩ [[2, 1, 0, 2, 2, 0]]
        = some ⟨cobsEncodeVec [2] ++ [0], [SerialMessage.ping]⟩
    ∧ [SerialMessage.ping]
        ≠ [SerialMessage.ping, SerialMessage.setLedState true] :=
  ⟨by decide, rfl, rfl, by decide, by decide⟩

/-- Witness for C4 on a concrete 2x2 RGB buffer with row 0 in bounds. -/
theorem representation_mismatch_witness :
    ((ScreenBuffer.new 2 2 (some ⟨31744, 0⟩)).is_rgb = true →
      (ScreenBuffer.new 2 2 (some ⟨31744, 0⟩)).get_row 0 = .error .invalidData)
    ∧ ((ScreenBuffer.new 2 2 (some ⟨31744, 0⟩)).is_rgb = false →
      (ScreenBuffer.new 2 2 (some ⟨31744, 0⟩)).get_row_rgb 0 = .error .invalidData)
    ∧ ((ScreenBuffer.new 2 2 (some ⟨31744, 0⟩)).is_rgb = false →
      (ScreenBuffer.new 2 2 (some ⟨31744, 0⟩)).set_palette ⟨7, 3⟩
        = .error .invalidData)
    ∧ ((ScreenBuffer.new 2 2 (some ⟨31744, 0⟩)).is_rgb = true →
      ∃ buf pal0, (ScreenBuffer.new 2 2 (some ⟨31744, 0⟩)).buffer = .rgb555 buf pal0
        ∧ (ScreenBuffer.new 2 2 (some ⟨31744, 0⟩)).set_palette ⟨7, 3⟩
          = .ok { ScreenBuffer.new 2 2 (some ⟨31744, 0⟩) with
                    buffer := .rgb555 buf ⟨7, 3⟩ }) :=
  representation_mismatch_claim (ScreenBuffer.new 2 2 (some ⟨31744, 0⟩)) 0 ⟨7, 3⟩
    (by decide)

end Megabit
